import Mathlib

/-!
Verification development for the go-datadog metrics core.

The Go sources are shallowly embedded: pure functions become Lean
functions, stateful methods become explicit state passing, `int64`
becomes `ℤ`, `float64` becomes `ℝ` (idealized real arithmetic), and
`time.Time`/`time.Duration` are modelled as real-valued counts of
nanoseconds (Go durations are int64 nanoseconds; `Duration.Seconds()`
divides by 1e9 and a direct `float64(d)` conversion yields nanoseconds).
Randomness is passed in explicitly: `rand.Intn(n)` becomes an arbitrary
natural number reduced modulo `n`, `rand.Float64()` becomes a real
argument.
-/

/-! ## Series (metric.go / series model) -/

/-- The series value slot is `interface{}` in Go and carries either an
`int64` or a `float64`; both are modelled as `ℝ`. -/
structure Series where
  metric : String
  points : List (ℤ × ℝ)
  type : String
  host : String
  tags : List String

def MT_COUNTER : String := "counter"

def MT_GAUGE : String := "gauge"

/-- `NewSeries` builds a series with a single point; `Host` is left at its
zero value as in the Go constructor. -/
def NewSeries (name : String) (t : ℤ) (v : ℝ) (tags : List String) (mt : String) : Series :=
  { metric := name, points := [(t, v)], type := mt, host := "", tags := tags }

/-! ## SampleSnapshot and derived statistics (timer.go part 2) -/

/-- Read-only copy of a sample: lifetime count plus retained values. -/
structure SampleSnapshot where
  count : ℤ
  values : List ℤ

def int64Max : ℤ := 9223372036854775807

def int64Min : ℤ := -9223372036854775808

/-- `Max`: 0 on an empty snapshot, otherwise a fold starting from the
`math.MinInt64` sentinel, keeping the larger value. -/
def SampleSnapshot.Max (s : SampleSnapshot) : ℤ :=
  if s.values.length = 0 then 0
  else s.values.foldl (fun mx v => if mx < v then v else mx) int64Min

/-- `Min`: 0 on an empty snapshot, otherwise a fold starting from the
`math.MaxInt64` sentinel, keeping the smaller value. -/
def SampleSnapshot.Min (s : SampleSnapshot) : ℤ :=
  if s.values.length = 0 then 0
  else s.values.foldl (fun mn v => if mn > v then v else mn) int64Max

/-- `Sum` of the retained values. -/
def SampleSnapshot.Sum (s : SampleSnapshot) : ℤ :=
  s.values.foldl (· + ·) 0

/-- `Mean`: 0 on an empty snapshot, otherwise `Sum / len`. -/
noncomputable def SampleSnapshot.Mean (s : SampleSnapshot) : ℝ :=
  if s.values.length = 0 then 0
  else (s.Sum : ℝ) / (s.values.length : ℝ)

/-- `Variance`: 0 on an empty snapshot, otherwise the mean squared
deviation from the mean. -/
noncomputable def SampleSnapshot.Variance (s : SampleSnapshot) : ℝ :=
  if s.values.length = 0 then 0
  else
    (s.values.foldl (fun sum v => sum + ((v : ℝ) - s.Mean) * ((v : ℝ) - s.Mean)) 0)
      / (s.values.length : ℝ)

/-- `StdDev` is the square root of the variance. -/
noncomputable def SampleSnapshot.StdDev (s : SampleSnapshot) : ℝ :=
  Real.sqrt s.Variance

/-- One percentile score over the already-sorted retained values:
`pos = p * (size+1)`; below 1 take the first element, at or above `size`
take the last, otherwise interpolate between the two neighbours of
`pos`.  Go's `int(pos)` truncation agrees with `⌊pos⌋` on the middle
branch where `1 ≤ pos`. -/
noncomputable def percentileScore (sorted : List ℤ) (p : ℝ) : ℝ :=
  let size := sorted.length
  let pos : ℝ := p * ((size : ℝ) + 1)
  if pos < 1 then ((sorted.getD 0 0 : ℤ) : ℝ)
  else if pos ≥ (size : ℝ) then ((sorted.getD (size - 1) 0 : ℤ) : ℝ)
  else
    let lower : ℝ := ((sorted.getD (⌊pos⌋.toNat - 1) 0 : ℤ) : ℝ)
    let upper : ℝ := ((sorted.getD ⌊pos⌋.toNat 0 : ℤ) : ℝ)
    lower + (pos - (⌊pos⌋ : ℝ)) * (upper - lower)

/-- `Percentiles`: scores start at zero and are only filled in when the
snapshot is non-empty, after sorting the retained values ascending
(`sort.Sort(s.values)`). -/
noncomputable def SampleSnapshot.Percentiles (s : SampleSnapshot) (ps : List ℝ) : List ℝ :=
  if 0 < s.values.length then
    ps.map (percentileScore (s.values.insertionSort (· ≤ ·)))
  else ps.map (fun _ => 0)

/-- `Percentile`: 0 on an empty snapshot, otherwise the head of
`Percentiles [p]`. -/
noncomputable def SampleSnapshot.Percentile (s : SampleSnapshot) (p : ℝ) : ℝ :=
  if s.values.length = 0 then 0
  else (s.Percentiles [p]).getD 0 0

/-- `Size` of the snapshot. -/
def SampleSnapshot.SnapSize (s : SampleSnapshot) : ℕ := s.values.length

/-! ## container/heap on a list (Go standard library, as used by
`expDecaySampleHeap`: `Push` appends at the end, `Pop` removes the last
element, `Less` compares priority keys).  The comparison is passed in as
a `Bool`-valued function. -/

/-- Exchange the elements at positions `i` and `j` (`Swap`). -/
def heapSwap {α : Type} (l : List α) (i j : ℕ) : List α :=
  match l[i]?, l[j]? with
  | some a, some b => (l.set i b).set j a
  | _, _ => l

/-- `up(h, j)`: sift the element at `j` towards the root while it is
`Less` than its parent `(j-1)/2`.  Indices are in range in every actual
call; `getD` totalizes the out-of-range accesses on which Go would
panic. -/
def heapUp {α : Type} [Inhabited α] (lt : α → α → Bool) (l : List α) (j : ℕ) : List α :=
  if _hj : j = 0 then l
  else
    let i := (j - 1) / 2
    if lt (l.getD j default) (l.getD i default) then heapUp lt (heapSwap l i j) i else l
termination_by j
decreasing_by omega

/-- `down(h, i, n)`: sift the element at `i` down within the first `n`
positions, descending to the `Less`-smaller child. -/
def heapDown {α : Type} [Inhabited α] (lt : α → α → Bool) (l : List α) (i n : ℕ) : List α :=
  if _h1 : 2 * i + 1 ≥ n then l
  else
    let j1 := 2 * i + 1
    let j : ℕ :=
      if 2 * i + 2 < n && lt (l.getD (2 * i + 2) default) (l.getD j1 default) then 2 * i + 2
      else j1
    if lt (l.getD j default) (l.getD i default) then heapDown lt (heapSwap l i j) j n
    else l
termination_by n - i
decreasing_by
  split
  next h => simp only [Bool.and_eq_true, decide_eq_true_eq] at h; omega
  next h => omega

/-- `heap.Push`: append at the end and sift up from the last slot. -/
def heapPush {α : Type} [Inhabited α] (lt : α → α → Bool) (l : List α) (x : α) : List α :=
  heapUp lt (l ++ [x]) l.length

/-- `heap.Pop` followed by dropping the returned element: swap the root
with the last element, sift down over the shortened prefix, and remove
the last element. -/
def heapPopDrop {α : Type} [Inhabited α] (lt : α → α → Bool) (l : List α) : List α :=
  (heapDown lt (heapSwap l 0 (l.length - 1)) 0 (l.length - 1)).dropLast

/-! ## ExpDecaySample (timer.go part 2) -/

/-- An individual sample held in the heap: priority key and value. -/
structure expDecaySample where
  k : ℝ
  v : ℤ

instance : Inhabited expDecaySample := ⟨⟨0, 0⟩⟩

/-- `expDecaySampleHeap.Less` compares priority keys with `<`. -/
noncomputable def edsLess (a b : expDecaySample) : Bool := decide (a.k < b.k)

/-- `rescaleThreshold = time.Hour`, in nanoseconds. -/
def rescaleThreshold : ℝ := 3600000000000

/-- State of an `ExpDecaySample`.  Times `t0`, `t1` are absolute
timestamps in nanoseconds. -/
structure ExpDecaySampleState where
  alpha : ℝ
  count : ℤ
  reservoirSize : ℕ
  t0 : ℝ
  t1 : ℝ
  values : List expDecaySample

/-- `NewExpDecaySample` at creation time `t0`. -/
def NewExpDecaySample (reservoirSize : ℕ) (alpha : ℝ) (t0 : ℝ) : ExpDecaySampleState :=
  { alpha := alpha, count := 0, reservoirSize := reservoirSize,
    t0 := t0, t1 := t0 + rescaleThreshold, values := [] }

/-- The priority key assigned on insertion:
`math.Exp(t.Sub(s.t0).Seconds()*s.alpha) / rand.Float64()`, with the
uniform draw `u` passed in and `Seconds()` dividing nanoseconds by 1e9. -/
noncomputable def edsKey (alpha t0 t u : ℝ) : ℝ :=
  Real.exp ((t - t0) / 1000000000 * alpha) / u

/-- The rescale step applied to each retained sample when the hourly
threshold is crossed: `v.k = v.k * math.Exp(-s.alpha*float64(s.t0.Sub(t0)))`.
`float64` of a Go `time.Duration` is its raw nanosecond count, so `dtNs`
is the elapsed time of the crossed interval in nanoseconds. -/
noncomputable def rescaleSample (alpha dtNs : ℝ) (x : expDecaySample) : expDecaySample :=
  { x with k := x.k * Real.exp (-alpha * dtNs) }

/-- `ExpDecaySample.update(t, v)` with explicit uniform draw `u`. -/
noncomputable def ExpDecaySampleState.update (s : ExpDecaySampleState) (t u : ℝ) (v : ℤ) :
    ExpDecaySampleState :=
  let count := s.count + 1
  let popped := if s.values.length = s.reservoirSize then heapPopDrop edsLess s.values else s.values
  let pushed := heapPush edsLess popped { k := edsKey s.alpha s.t0 t u, v := v }
  if s.t1 < t then
    { s with count := count, t0 := t, t1 := t + rescaleThreshold
             values := pushed.foldl
               (fun acc x => heapPush edsLess acc (rescaleSample s.alpha (t - s.t0) x)) [] }
  else
    { s with count := count, values := pushed }

/-- `ExpDecaySample.Clear()` at time `t`. -/
def ExpDecaySampleState.Clear (s : ExpDecaySampleState) (t : ℝ) : ExpDecaySampleState :=
  { s with count := 0, t0 := t, t1 := t + rescaleThreshold, values := [] }

/-- `ExpDecaySample.Size()` is the number of retained values. -/
def ExpDecaySampleState.EDSize (s : ExpDecaySampleState) : ℕ := s.values.length

/-- One externally-triggered operation on an `ExpDecaySample`. -/
inductive EDOp where
  | update (t u : ℝ) (v : ℤ)
  | clear (t : ℝ)

/-- Apply one operation. -/
noncomputable def EDOp.apply (s : ExpDecaySampleState) : EDOp → ExpDecaySampleState
  | EDOp.update t u v => s.update t u v
  | EDOp.clear t => s.Clear t

/-- Apply a sequence of operations in order. -/
noncomputable def EDOp.applyAll (s : ExpDecaySampleState) (ops : List EDOp) : ExpDecaySampleState :=
  ops.foldl EDOp.apply s

/-! ## UniformSample (timer.go part 2) -/

/-- State of a `UniformSample`. -/
structure UniformSampleState where
  count : ℤ
  reservoirSize : ℕ
  values : List ℤ

/-- `NewUniformSample` with the given reservoir size. -/
def NewUniformSample (reservoirSize : ℕ) : UniformSampleState :=
  { count := 0, reservoirSize := reservoirSize, values := [] }

/-- `UniformSample.Update(v)` with the random draw passed in: the Go code
indexes with `rand.Intn(s.reservoirSize)`, a uniform integer in
`[0, reservoirSize)`, modelled as `r % reservoirSize` for an arbitrary
`r`.  Below capacity the value is appended; at capacity the drawn slot is
overwritten unconditionally. -/
def UniformSampleState.Update (s : UniformSampleState) (r : ℕ) (v : ℤ) : UniformSampleState :=
  let count := s.count + 1
  if s.values.length < s.reservoirSize then
    { s with count := count, values := s.values ++ [v] }
  else
    { s with count := count, values := s.values.set (r % s.reservoirSize) v }

/-- `UniformSample.Clear()`. -/
def UniformSampleState.Clear (s : UniformSampleState) : UniformSampleState :=
  { s with count := 0, values := [] }

/-- `UniformSample.Size()`. -/
def UniformSampleState.USize (s : UniformSampleState) : ℕ := s.values.length

/-! ## EWMA (timer.go part 3) -/

/-- EWMA state: uncounted events since the last tick, blending factor,
smoothed per-nanosecond rate, and the initialized flag. -/
structure EWMAState where
  uncounted : ℤ
  alpha : ℝ
  rate : ℝ
  initDone : Bool

/-- `NewEWMA` with the given alpha. -/
def NewEWMA (alpha : ℝ) : EWMAState :=
  { uncounted := 0, alpha := alpha, rate := 0, initDone := false }

/-- The one-minute-window alpha: `1 - math.Exp(-5.0/60.0/1)`. -/
noncomputable def ewmaAlpha1 : ℝ := 1 - Real.exp (-5.0 / 60.0 / 1)

/-- `EWMA.Update(n)` adds `n` uncounted events. -/
def EWMAState.Update (a : EWMAState) (n : ℤ) : EWMAState :=
  { a with uncounted := a.uncounted + n }

/-- `EWMA.Tick()`: drain the accumulator, compute
`instantRate = count / 5e9` (the tick period in nanoseconds), then blend
it into the smoothed rate, or on the first tick set the rate directly. -/
noncomputable def EWMAState.Tick (a : EWMAState) : EWMAState :=
  let count := a.uncounted
  let instantRate : ℝ := (count : ℝ) / 5000000000
  if a.initDone then
    { a with uncounted := a.uncounted - count
             rate := a.rate + a.alpha * (instantRate - a.rate) }
  else
    { a with uncounted := a.uncounted - count, initDone := true, rate := instantRate }

/-- `EWMA.Rate()` scales the per-nanosecond rate to events per second. -/
noncomputable def EWMAState.Rate (a : EWMAState) : ℝ := a.rate * 1000000000

/-- `n` consecutive ticks with no intervening updates. -/
noncomputable def EWMAState.TickN (a : EWMAState) : ℕ → EWMAState
  | 0 => a
  | n + 1 => (a.TickN n).Tick

/-! ## Counter and FlashCounter (timer.go part 5) -/

/-- Counter state: base metric name/tags plus the atomic count. -/
structure CounterState where
  name : String
  tags : List String
  count : ℤ

/-- `NewCounter`. -/
def NewCounter (name : String) (tags : List String) : CounterState :=
  { name := name, tags := tags, count := 0 }

/-- `Counter.Inc(i)`. -/
def CounterState.Inc (c : CounterState) (i : ℤ) : CounterState :=
  { c with count := c.count + i }

/-- `Counter.Dec(i)`. -/
def CounterState.Dec (c : CounterState) (i : ℤ) : CounterState :=
  { c with count := c.count - i }

/-- `Counter.Count()`. -/
def CounterState.Count (c : CounterState) : ℤ := c.count

/-- `Counter.Flush(now)`: one counter-type series, state unchanged. -/
def CounterState.Flush (c : CounterState) (now : ℤ) : List Series × CounterState :=
  ([NewSeries (c.name ++ ".count") now (c.count : ℝ) c.tags MT_COUNTER], c)

/-- `FlashCounter.Flush(now)`: read the count, emit it, and subtract
exactly the value read (`defer m.Dec(count)`). -/
def FlashCounterFlush (c : CounterState) (now : ℤ) : List Series × CounterState :=
  let count := c.Count
  ([NewSeries (c.name ++ ".count") now (count : ℝ) c.tags MT_COUNTER], c.Dec count)

/-! ## Timer.Flush (timer.go part 1) -/

/-- The meter-derived rates a `Timer` reads while flushing
(`RateMean`, `Rate1`, `Rate5`, `Rate15`). -/
structure MeterRates where
  rateMean : ℝ
  rate1 : ℝ
  rate5 : ℝ
  rate15 : ℝ

/-- `Timer.norm(n) = float64(n) / t.unit`. -/
noncomputable def timerNorm (unit : ℝ) (n : ℤ) : ℝ := (n : ℝ) / unit

/-- `Timer.Flush(now)`, with the embedded meter's rates and the sample's
snapshot passed in (the sample is behind the `Sample` interface; its
`Snapshot()` result at flush time is `snap`). -/
noncomputable def TimerFlush (name : String) (tags : List String) (unit : ℝ)
    (m : MeterRates) (snap : SampleSnapshot) (now : ℤ) : List Series :=
  let p := snap.Percentiles [0.5, 0.75, 0.95, 0.99]
  [NewSeries (name ++ ".rate") now m.rateMean tags MT_GAUGE,
   NewSeries (name ++ ".rate1") now m.rate1 tags MT_GAUGE,
   NewSeries (name ++ ".rate5") now m.rate5 tags MT_GAUGE,
   NewSeries (name ++ ".rate15") now m.rate15 tags MT_GAUGE,
   NewSeries (name ++ ".count") now (snap.count : ℝ) tags MT_COUNTER,
   NewSeries (name ++ ".min") now (timerNorm unit snap.Min) tags MT_GAUGE,
   NewSeries (name ++ ".max") now (timerNorm unit snap.Max) tags MT_GAUGE,
   NewSeries (name ++ ".mean") now (snap.Mean / unit) tags MT_GAUGE,
   NewSeries (name ++ ".stddev") now (snap.StdDev / unit) tags MT_GAUGE,
   NewSeries (name ++ ".median") now (p.getD 0 0 / unit) tags MT_GAUGE,
   NewSeries (name ++ ".percentile.75") now (p.getD 1 0 / unit) tags MT_GAUGE,
   NewSeries (name ++ ".percentile.95") now (p.getD 2 0 / unit) tags MT_GAUGE,
   NewSeries (name ++ ".percentile.99") now (p.getD 3 0 / unit) tags MT_GAUGE]

/-! ## MetricID and the registry (timer.go part 4, reporter.go) -/

/-- `NewMetricID` with the in-place `sort.Strings(tags)` made explicit:
the result is the ID together with the tag slice as it is left after the
call (sorted lexicographically). -/
def NewMetricIDMut (name : String) (tags : List String) : String × List String :=
  let sorted := tags.insertionSort (· ≤ ·)
  (name ++ "|" ++ String.intercalate "," sorted, sorted)

/-- The ID component of `NewMetricID`. -/
def NewMetricID (name : String) (tags : List String) : String :=
  (NewMetricIDMut name tags).1

/-- The registry map of a `MetricReporter`, with the stored metric type
abstract (the Go map stores `Metric` interface values). -/
def Registry (M : Type) : Type := String → Option M

/-- Map insertion (`rep.registry[id] = m`). -/
def Registry.store {M : Type} (reg : Registry M) (id : String) (m : M) : Registry M :=
  fun k => if k = id then some m else reg k

/-- `MetricReporter.Register(m)`: always stores `m` under the ID derived
from its name and tags.  Because `NewMetricID` sorts the metric's own
tag slice in place, the stored (and caller-visible) metric carries the
sorted tags; the updated metric is returned alongside the registry. -/
def RegisterMut {M : Type} (mname : M → String) (mtags : M → List String)
    (withTags : M → List String → M) (reg : Registry M) (m : M) : Registry M × M :=
  let idTags := NewMetricIDMut (mname m) (mtags m)
  let m' := withTags m idTags.2
  (reg.store idTags.1 m', m')

/-- `MetricReporter.GetByID(id)`: lookup, `nil` becomes `none`. -/
def GetByID {M : Type} (reg : Registry M) (id : String) : Option M :=
  reg id

/-- `MetricReporter.Get(name, tags)`. -/
def RegGet {M : Type} (reg : Registry M) (name : String) (tags : List String) : Option M :=
  GetByID reg (NewMetricID name tags)

/-- `MetricReporter.Fetch(fallback, name, tags)`: return the registered
metric when present, otherwise invoke `fallback` and store its result.
The fallback is a Go closure; its (possible) side effect is modelled by
threading an explicit effect state `σ` through it, so "not invoked"
is visible as the effect state passing through unchanged. -/
def Fetch {M σ : Type} (reg : Registry M) (fallback : σ → M × σ) (name : String)
    (tags : List String) (eff : σ) : M × Registry M × σ :=
  let id := NewMetricID name tags
  match reg id with
  | some val => (val, reg, eff)
  | none =>
    let r := fallback eff
    (r.1, reg.store id r.1, r.2)

/-- `BaseMetric`: the name/tags carrier embedded in every concrete
metric. -/
structure BaseMetric where
  name : String
  tags : List String

/-- `MetricReporter.Register(m)` for a metric exposing `BaseMetric`:
`rep.registry[NewMetricID(m.Name(), m.Tags())] = m`.  `NewMetricID`
sorts the tag slice handed to it in place, and `m.Tags()` returns the
metric's own slice, so the metric's tags after the call are the sorted
ones; the pair returned is (updated registry, metric as left after the
call). -/
def RegisterBase (reg : Registry BaseMetric) (m : BaseMetric) : Registry BaseMetric × BaseMetric :=
  let r := NewMetricIDMut m.name m.tags
  let m' : BaseMetric := { m with tags := r.2 }
  (reg.store r.1 m', m')

/-! ## Helper lemmas -/

theorem heapSwap_length {α : Type} (l : List α) (i j : ℕ) :
    (heapSwap l i j).length = l.length := by
  unfold heapSwap
  split <;> simp

theorem heapUp_length {α : Type} [Inhabited α] (lt : α → α → Bool) (l : List α) (j : ℕ) :
    (heapUp lt l j).length = l.length := by
  induction j using Nat.strong_induction_on generalizing l with
  | _ j ih =>
    rw [heapUp]
    split
    next => rfl
    next hj =>
      dsimp only
      split
      next => rw [ih _ (by omega), heapSwap_length]
      next => rfl

theorem heapDown_length_aux {α : Type} [Inhabited α] (lt : α → α → Bool) :
    ∀ (k i n : ℕ) (l : List α), n - i ≤ k → (heapDown lt l i n).length = l.length
  | 0, i, n, l, hk => by
    rw [heapDown, dif_pos (by omega)]
  | k + 1, i, n, l, hk => by
    rw [heapDown]
    split
    next => rfl
    next h1 =>
      dsimp only
      split
      next hc =>
        split
        next =>
          rw [heapDown_length_aux lt k _ n _
            (by simp only [Bool.and_eq_true, decide_eq_true_eq] at hc; omega), heapSwap_length]
        next => rfl
      next hc =>
        split
        next => rw [heapDown_length_aux lt k _ n _ (by omega), heapSwap_length]
        next => rfl

theorem heapDown_length {α : Type} [Inhabited α] (lt : α → α → Bool) (l : List α) (i n : ℕ) :
    (heapDown lt l i n).length = l.length :=
  heapDown_length_aux lt (n - i) i n l le_rfl

theorem heapPush_length {α : Type} [Inhabited α] (lt : α → α → Bool) (l : List α) (x : α) :
    (heapPush lt l x).length = l.length + 1 := by
  unfold heapPush
  rw [heapUp_length]
  simp

theorem heapPopDrop_length {α : Type} [Inhabited α] (lt : α → α → Bool) (l : List α) :
    (heapPopDrop lt l).length = l.length - 1 := by
  unfold heapPopDrop
  rw [List.length_dropLast, heapDown_length, heapSwap_length]

theorem foldl_heapPush_length {α β : Type} [Inhabited α] (lt : α → α → Bool) (f : β → α) :
    ∀ (xs : List β) (acc : List α),
      (xs.foldl (fun acc x => heapPush lt acc (f x)) acc).length = acc.length + xs.length
  | [], acc => by simp
  | x :: xs, acc => by
    rw [List.foldl_cons, foldl_heapPush_length lt f xs, heapPush_length]
    simp
    omega

/-! ## Claim theorems -/

/-- Claim C1: the claim says that once the uniform reservoir is full a
new value replaces a slot only with probability `C/N` (a uniform draw
in `[0, N)` accepted when below `C`).  The code instead draws only in
`[0, C)` and replaces unconditionally: with capacity 1, after observing
the two values 1 and 2, the reservoir is `[2]` for **every** possible
random draw, although the claimed Algorithm R would retain the first
value with probability 1/2. -/
theorem uniformSample_update_always_replaces :
    (∀ r : ℕ, (((NewUniformSample 1).Update 0 1).Update r 2).values = [2]) ∧
    ((NewUniformSample 1).Update 0 1).values = [1] ∧
    (∀ r : ℕ, (((NewUniformSample 1).Update 0 1).Update r 2).count = 2) := by
  refine ⟨fun r => ?_, rfl, fun r => rfl⟩
  simp [NewUniformSample, UniformSampleState.Update, Nat.mod_one]

/-- Claim C7: a fresh `FlashCounter` after `Inc(5)` flushes exactly one
series with suffix `.count`, type counter and value 5, leaving the
count at 0; in general each flush reports the count read at flush time
and subtracts exactly that amount, so the residual count is
`count - count = 0`. -/
theorem flashCounter_flush_spec :
    (FlashCounterFlush ((NewCounter "x" ["t"]).Inc 5) 7 =
      ([{ metric := "x.count", points := [(7, 5)], type := "counter", host := "", tags := ["t"] }],
        { name := "x", tags := ["t"], count := 0 })) ∧
    (∀ (c : CounterState) (now : ℤ),
      (FlashCounterFlush c now).1 =
        [NewSeries (c.name ++ ".count") now (c.count : ℝ) c.tags MT_COUNTER] ∧
      (FlashCounterFlush c now).2.count = c.count - c.count ∧
      (FlashCounterFlush c now).2.count = 0) := by
  refine ⟨?_, fun c now => ⟨rfl, rfl, by simp [FlashCounterFlush, CounterState.Dec, CounterState.Count]⟩⟩
  simp [FlashCounterFlush, NewCounter, CounterState.Inc, CounterState.Dec, CounterState.Count,
    NewSeries, MT_COUNTER]

/-- Claim C8: `Timer.Flush` emits exactly the 13 series with suffixes
`.rate`, `.rate1`, `.rate5`, `.rate15`, `.count`, `.min`, `.max`,
`.mean`, `.stddev`, `.median`, `.percentile.75`, `.percentile.95`,
`.percentile.99`, the sample-derived duration statistics all divided by
the configured unit (the count, an event tally rather than a duration,
is emitted raw as a counter). -/
theorem timer_flush_suffixes (name : String) (tags : List String) (unit : ℝ)
    (m : MeterRates) (snap : SampleSnapshot) (now : ℤ) :
    (TimerFlush name tags unit m snap now).map Series.metric =
      [name ++ ".rate", name ++ ".rate1", name ++ ".rate5", name ++ ".rate15",
       name ++ ".count", name ++ ".min", name ++ ".max", name ++ ".mean", name ++ ".stddev",
       name ++ ".median", name ++ ".percentile.75", name ++ ".percentile.95",
       name ++ ".percentile.99"] ∧
    (TimerFlush name tags unit m snap now).length = 13 ∧
    (TimerFlush name tags unit m snap now).map Series.points =
      [[(now, m.rateMean)], [(now, m.rate1)], [(now, m.rate5)], [(now, m.rate15)],
       [(now, (snap.count : ℝ))],
       [(now, (snap.Min : ℝ) / unit)], [(now, (snap.Max : ℝ) / unit)],
       [(now, snap.Mean / unit)], [(now, snap.StdDev / unit)],
       [(now, (snap.Percentiles [0.5, 0.75, 0.95, 0.99]).getD 0 0 / unit)],
       [(now, (snap.Percentiles [0.5, 0.75, 0.95, 0.99]).getD 1 0 / unit)],
       [(now, (snap.Percentiles [0.5, 0.75, 0.95, 0.99]).getD 2 0 / unit)],
       [(now, (snap.Percentiles [0.5, 0.75, 0.95, 0.99]).getD 3 0 / unit)]] ∧
    (TimerFlush name tags unit m snap now).map Series.type =
      [MT_GAUGE, MT_GAUGE, MT_GAUGE, MT_GAUGE, MT_COUNTER, MT_GAUGE, MT_GAUGE, MT_GAUGE,
       MT_GAUGE, MT_GAUGE, MT_GAUGE, MT_GAUGE, MT_GAUGE] := by
  refine ⟨rfl, rfl, ?_, rfl⟩
  simp [TimerFlush, NewSeries, timerNorm]

/-- Claim C9: `NewMetricID` is invariant under permutations of the tag
list, since it sorts the tags before joining them. -/
theorem newMetricID_perm_invariant (name : String) (t1 t2 : List String)
    (h : t1.Perm t2) : NewMetricID name t1 = NewMetricID name t2 := by
  unfold NewMetricID NewMetricIDMut
  have hs : t1.insertionSort (· ≤ ·) = t2.insertionSort (· ≤ ·) :=
    List.eq_of_perm_of_sorted
      ((List.perm_insertionSort _ t1).trans (h.trans (List.perm_insertionSort _ t2).symm))
      (List.sorted_insertionSort _ t1) (List.sorted_insertionSort _ t2)
  rw [hs]

/-- Witness for C9: the claim at the concrete tag lists
`["b","a"]` and `["a","b"]`. -/
theorem newMetricID_perm_invariant_witness :
    (["b", "a"] : List String).Perm ["a", "b"] ∧
    NewMetricID "x" ["b", "a"] = NewMetricID "x" ["a", "b"] :=
  ⟨by decide, newMetricID_perm_invariant "x" ["b", "a"] ["a", "b"] (by decide)⟩

/-- Claim C10: `NewMetricID` sorts the tag slice it is handed in place:
the slice left behind is the lexicographically sorted one, so `Register`
leaves the metric's own tag array sorted, and the original tag order
(`["b","a"]`) is not preserved anywhere. -/
theorem newMetricID_sorts_in_place :
    (∀ (name : String) (tags : List String),
      (NewMetricIDMut name tags).2 = tags.insertionSort (· ≤ ·)) ∧
    (∀ (reg : Registry BaseMetric) (m : BaseMetric),
      (RegisterBase reg m).2.tags = m.tags.insertionSort (· ≤ ·) ∧
      GetByID (RegisterBase reg m).1 (NewMetricID m.name m.tags) =
        some { m with tags := m.tags.insertionSort (· ≤ ·) }) ∧
    ((NewMetricIDMut "x" ["b", "a"]).2 = ["a", "b"] ∧ (["a", "b"] : List String) ≠ ["b", "a"]) := by
  have hba : ¬ ("b" : String) ≤ "a" := by
    rw [String.le_iff_toList_le]; decide
  refine ⟨fun name tags => rfl, fun reg m => ⟨rfl, ?_⟩,
    by simp [NewMetricIDMut, List.insertionSort, List.orderedInsert, hba], by decide⟩
  simp [GetByID, RegisterBase, Registry.store, NewMetricID, NewMetricIDMut]

/-- Claim C6: `Fetch` returns the registered metric unchanged (and with
the fallback's effect state untouched) when the derived ID is present;
when absent it invokes the fallback exactly once, stores the result
under the ID, and returns it.  `Register` always stores the metric under
its derived ID, overwriting whatever was there.  `Get`/`GetByID` are
pure lookups returning `none` (`nil`) when the ID is absent. -/
theorem registry_fetch_register_get :
    (∀ (M σ : Type) (reg : Registry M) (fb : σ → M × σ) (name : String) (tags : List String)
        (eff : σ) (m : M),
      reg (NewMetricID name tags) = some m →
      Fetch reg fb name tags eff = (m, reg, eff)) ∧
    (∀ (M σ : Type) (reg : Registry M) (fb : σ → M × σ) (name : String) (tags : List String)
        (eff : σ),
      reg (NewMetricID name tags) = none →
      Fetch reg fb name tags eff =
        ((fb eff).1, Registry.store reg (NewMetricID name tags) (fb eff).1, (fb eff).2) ∧
      GetByID (Fetch reg fb name tags eff).2.1 (NewMetricID name tags) = some (fb eff).1) ∧
    (∀ (reg : Registry BaseMetric) (m : BaseMetric),
      GetByID (RegisterBase reg m).1 (NewMetricID m.name m.tags) = some (RegisterBase reg m).2) ∧
    (∀ (M : Type) (reg : Registry M) (name : String) (tags : List String) (id : String),
      RegGet reg name tags = reg (NewMetricID name tags) ∧ GetByID reg id = reg id) := by
  refine ⟨fun M σ reg fb name tags eff m h => ?_, fun M σ reg fb name tags eff h => ⟨?_, ?_⟩,
    fun reg m => ?_, fun M reg name tags id => ⟨rfl, rfl⟩⟩
  · simp [Fetch, h]
  · simp [Fetch, h]
  · simp [Fetch, h, GetByID, Registry.store]
  · simp [GetByID, RegisterBase, Registry.store, NewMetricID]

/-- Witness for C6: both `Fetch` branches exercised on a concrete
registry over `M = ℕ` with an effect counter. -/
theorem registry_fetch_register_get_witness :
    ((fun _ : String => (none : Option ℕ)) (NewMetricID "x" ["a"]) = none) ∧
    (Fetch (fun _ : String => (none : Option ℕ)) (fun c : ℕ => (7, c + 1)) "x" ["a"] 0 =
      (7, Registry.store (fun _ => none) (NewMetricID "x" ["a"]) 7, 1)) ∧
    ((fun _ : String => (some 9 : Option ℕ)) (NewMetricID "x" ["a"]) = some 9) ∧
    (Fetch (fun _ : String => (some 9 : Option ℕ)) (fun c : ℕ => (7, c + 1)) "x" ["a"] 0 =
      (9, fun _ => some 9, 0)) :=
  ⟨rfl,
    (registry_fetch_register_get.2.1 ℕ ℕ (fun _ => none) (fun c => (7, c + 1)) "x" ["a"] 0 rfl).1,
    rfl,
    registry_fetch_register_get.1 ℕ ℕ (fun _ => some 9) (fun c => (7, c + 1)) "x" ["a"] 0 9 rfl⟩

/-- Claim C2: the rescale step multiplies every retained key by
`exp(-alpha * Δt)` with `Δt` taken in **nanoseconds**
(`float64(s.t0.Sub(t0))` is the raw `time.Duration` count), while the
insertion keys use `Seconds()`; so although the common positive factor
preserves the relative ordering of the retained keys (first conjunct),
the factor differs from the claimed `exp(-alpha * Δt_seconds)` at a
one-hour gap with the default `alpha = 0.015` (second conjunct). -/
theorem expDecay_rescale_units_bug :
    (∀ (alpha dtNs k1 k2 : ℝ) (v1 v2 : ℤ),
      (rescaleSample alpha dtNs ⟨k1, v1⟩).k < (rescaleSample alpha dtNs ⟨k2, v2⟩).k ↔ k1 < k2) ∧
    (rescaleSample 0.015 3600000000000 ⟨1, 0⟩).k ≠
      1 * Real.exp (-(0.015 : ℝ) * (3600000000000 / 1000000000)) := by
  constructor
  · intro alpha dtNs k1 k2 v1 v2
    exact mul_lt_mul_right (Real.exp_pos _)
  · unfold rescaleSample
    dsimp only
    intro h
    rw [one_mul, one_mul] at h
    have h2 := Real.exp_injective h
    norm_num at h2

/-- One tick of an already-initialized EWMA, unfolded. -/
theorem ewma_tick_of_init (a : EWMAState) (ha : a.initDone = true) :
    a.Tick = { a with uncounted := a.uncounted - a.uncounted
                      rate := a.rate + a.alpha * ((a.uncounted : ℝ) / 5000000000 - a.rate) } := by
  unfold EWMAState.Tick
  rw [ha]
  simp

/-- Decay of an initialized EWMA under ticks with no pending updates:
each tick multiplies the smoothed rate by `1 - alpha`. -/
theorem ewma_tickN_decay (a : EWMAState) (ha : a.initDone = true) (hu : a.uncounted = 0) :
    ∀ n : ℕ, (a.TickN n).rate = a.rate * (1 - a.alpha) ^ n ∧
      (a.TickN n).initDone = true ∧ (a.TickN n).uncounted = 0 ∧ (a.TickN n).alpha = a.alpha
  | 0 => by simp [EWMAState.TickN, ha, hu]
  | n + 1 => by
    obtain ⟨hr, hi, hu2, hal⟩ := ewma_tickN_decay a ha hu n
    show ((a.TickN n).Tick).rate = _ ∧ ((a.TickN n).Tick).initDone = true ∧
      ((a.TickN n).Tick).uncounted = 0 ∧ ((a.TickN n).Tick).alpha = a.alpha
    rw [ewma_tick_of_init _ hi]
    refine ⟨?_, hi, by rw [hu2]; simp, hal⟩
    dsimp only
    rw [hr, hal, hu2]
    push_cast
    ring

/-- Claim C5: the first `Tick` sets the smoothed rate directly to
`drained / tick period` with no blending; every later `Tick` blends
`rate += alpha * (instantRate - rate)`; `Rate()` reports events per
second, so `Update(3)` followed by one `Tick` with the one-minute alpha
gives `Rate() = 0.6`, and each further tick with no updates multiplies
the rate by `1 - alpha ∈ (0,1)`, decaying exponentially to 0. -/
theorem ewma_rate_spec :
    (∀ a : EWMAState, a.initDone = false →
      a.Tick.rate = (a.uncounted : ℝ) / 5000000000 ∧ a.Tick.initDone = true) ∧
    (∀ a : EWMAState, a.initDone = true →
      a.Tick.rate = a.rate + a.alpha * ((a.uncounted : ℝ) / 5000000000 - a.rate)) ∧
    (((NewEWMA ewmaAlpha1).Update 3).Tick.Rate = 0.6) ∧
    (∀ n : ℕ, ((((NewEWMA ewmaAlpha1).Update 3).Tick).TickN n).Rate = 0.6 * (1 - ewmaAlpha1) ^ n) ∧
    (0 < 1 - ewmaAlpha1 ∧ 1 - ewmaAlpha1 < 1) ∧
    Filter.Tendsto (fun n => ((((NewEWMA ewmaAlpha1).Update 3).Tick).TickN n).Rate)
      Filter.atTop (nhds 0) := by
  have hfirst : ∀ a : EWMAState, a.initDone = false →
      a.Tick.rate = (a.uncounted : ℝ) / 5000000000 ∧ a.Tick.initDone = true := by
    intro a ha
    unfold EWMAState.Tick
    rw [ha]
    simp
  have hstate : ((NewEWMA ewmaAlpha1).Update 3).Tick =
      { uncounted := 0, alpha := ewmaAlpha1, rate := (3 : ℝ) / 5000000000, initDone := true } := by
    unfold NewEWMA EWMAState.Update EWMAState.Tick
    norm_num
  have halpha : (0 : ℝ) < 1 - ewmaAlpha1 ∧ 1 - ewmaAlpha1 < 1 := by
    constructor
    · unfold ewmaAlpha1
      have := Real.exp_pos (-5.0 / 60.0 / 1)
      linarith
    · unfold ewmaAlpha1
      have : Real.exp (-5.0 / 60.0 / 1) < 1 := by
        rw [Real.exp_lt_one_iff]
        norm_num
      linarith
  have hdecayN : ∀ n : ℕ,
      ((((NewEWMA ewmaAlpha1).Update 3).Tick).TickN n).Rate = 0.6 * (1 - ewmaAlpha1) ^ n := by
    intro n
    have h := ewma_tickN_decay (((NewEWMA ewmaAlpha1).Update 3).Tick)
      (by rw [hstate]) (by rw [hstate]) n
    unfold EWMAState.Rate
    rw [h.1, hstate]
    dsimp only
    ring_nf
  refine ⟨hfirst, ?_, ?_, hdecayN, halpha, ?_⟩
  · intro a ha
    rw [ewma_tick_of_init a ha]
  · unfold EWMAState.Rate
    rw [hstate]
    norm_num
  · have ht := (tendsto_pow_atTop_nhds_zero_of_lt_one (le_of_lt halpha.1)
      (by linarith [halpha.2] : 1 - ewmaAlpha1 < 1)).const_mul (0.6 : ℝ)
    rw [mul_zero] at ht
    simpa only [hdecayN] using ht

/-- Witness for C5: the two tick equations applied at the concrete
states `⟨3, 1/2, 0, false⟩` and `⟨0, 1/2, 4, true⟩`. -/
theorem ewma_rate_spec_witness :
    ((⟨3, 1/2, 0, false⟩ : EWMAState).initDone = false) ∧
    ((EWMAState.Tick ⟨3, 1/2, 0, false⟩).rate = ((3 : ℤ) : ℝ) / 5000000000) ∧
    ((⟨0, 1/2, 4, true⟩ : EWMAState).initDone = true) ∧
    ((EWMAState.Tick ⟨0, 1/2, 4, true⟩).rate =
      4 + (1 / 2 : ℝ) * (((0 : ℤ) : ℝ) / 5000000000 - 4)) :=
  ⟨rfl, (ewma_rate_spec.1 ⟨3, 1/2, 0, false⟩ rfl).1, rfl,
    ewma_rate_spec.2.1 ⟨0, 1/2, 4, true⟩ rfl⟩

/-- One `ExpDecaySample.update` keeps the retained count within the
reservoir size (which it leaves unchanged), for a positive reservoir
size. -/
theorem eds_update_capacity (s : ExpDecaySampleState) (t u : ℝ) (v : ℤ)
    (hcap : 0 < s.reservoirSize) (h : s.values.length ≤ s.reservoirSize) :
    (s.update t u v).values.length ≤ s.reservoirSize ∧
    (s.update t u v).reservoirSize = s.reservoirSize := by
  have hpush : (heapPush edsLess
      (if s.values.length = s.reservoirSize then heapPopDrop edsLess s.values else s.values)
      { k := edsKey s.alpha s.t0 t u, v := v }).length ≤ s.reservoirSize := by
    rw [heapPush_length]
    split
    next he => rw [heapPopDrop_length]; omega
    next hne => omega
  unfold ExpDecaySampleState.update
  dsimp only
  split
  next =>
    constructor
    · rw [foldl_heapPush_length]
      simpa using hpush
    · rfl
  next => exact ⟨hpush, rfl⟩

/-- Any sequence of `update`/`Clear` operations keeps the retained count
within the (unchanged) reservoir size. -/
theorem eds_applyAll_capacity (ops : List EDOp) :
    ∀ s : ExpDecaySampleState, 0 < s.reservoirSize → s.values.length ≤ s.reservoirSize →
      (EDOp.applyAll s ops).values.length ≤ s.reservoirSize ∧
      (EDOp.applyAll s ops).reservoirSize = s.reservoirSize := by
  induction ops with
  | nil => exact fun s _ h => ⟨h, rfl⟩
  | cons op ops ih =>
    intro s hcap h
    rw [show EDOp.applyAll s (op :: ops) = EDOp.applyAll (EDOp.apply s op) ops from rfl]
    cases op with
    | update t u v =>
      rw [show EDOp.apply s (EDOp.update t u v) = s.update t u v from rfl]
      have h1 := eds_update_capacity s t u v hcap h
      have h2 := ih (s.update t u v) (by rw [h1.2]; exact hcap) (by rw [h1.2]; exact h1.1)
      exact ⟨by rw [← h1.2]; exact h2.1, by rw [h2.2, h1.2]⟩
    | clear t =>
      rw [show EDOp.apply s (EDOp.clear t) = s.Clear t from rfl]
      have h2 := ih (s.Clear t) hcap (by simp [ExpDecaySampleState.Clear])
      exact ⟨h2.1, h2.2⟩

/-- Claim C3: starting from a fresh `ExpDecaySample` with positive
configured capacity `C`, no sequence of `update` and `Clear` operations
(including updates that cross the hourly rescale boundary) can make
`Size()` exceed `C`. -/
theorem expDecaySample_capacity_invariant (C : ℕ) (alpha t0 : ℝ) (ops : List EDOp)
    (hC : 0 < C) :
    (EDOp.applyAll (NewExpDecaySample C alpha t0) ops).EDSize ≤ C := by
  have h := eds_applyAll_capacity ops (NewExpDecaySample C alpha t0) hC (by simp [NewExpDecaySample])
  exact h.1

/-- Witness for C3: the claim at capacity 2 with a concrete operation
sequence. -/
theorem expDecaySample_capacity_invariant_witness :
    0 < 2 ∧
    (EDOp.applyAll (NewExpDecaySample 2 0 0) [EDOp.update 1 1 5, EDOp.update 2 1 6]).EDSize ≤ 2 :=
  ⟨by decide, expDecaySample_capacity_invariant 2 0 0 [EDOp.update 1 1 5, EDOp.update 2 1 6]
    (by decide)⟩

/-- The Go `Min` fold step is `min`. -/
theorem goMinStep_eq_min : (fun (mn v : ℤ) => if mn > v then v else mn) = min := by
  funext a b
  rw [min_def]
  split <;> split <;> omega

/-- The Go `Max` fold step is `max`. -/
theorem goMaxStep_eq_max : (fun (mx v : ℤ) => if mx < v then v else mx) = max := by
  funext a b
  rw [max_def]
  split <;> split <;> omega

theorem foldl_min_le_init (l : List ℤ) : ∀ a : ℤ, l.foldl min a ≤ a := by
  induction l with
  | nil => simp
  | cons x l ih =>
    intro a
    calc (x :: l).foldl min a = l.foldl min (min a x) := by rw [List.foldl_cons]
    _ ≤ min a x := ih _
    _ ≤ a := min_le_left _ _

theorem foldl_min_le_mem (l : List ℤ) : ∀ (a v : ℤ), v ∈ l → l.foldl min a ≤ v := by
  induction l with
  | nil => simp
  | cons x l ih =>
    intro a v hv
    rw [List.foldl_cons]
    rcases List.mem_cons.mp hv with rfl | hv
    · exact le_trans (foldl_min_le_init l _) (min_le_right _ _)
    · exact ih _ _ hv

theorem foldl_min_mem_or_init (l : List ℤ) : ∀ a : ℤ, l.foldl min a = a ∨ l.foldl min a ∈ l := by
  induction l with
  | nil => simp
  | cons x l ih =>
    intro a
    rw [List.foldl_cons]
    rcases ih (min a x) with h | h
    · rcases min_choice a x with hm | hm
      · exact Or.inl (h.trans hm)
      · exact Or.inr (by rw [h, hm]; exact List.mem_cons_self _ _)
    · exact Or.inr (List.mem_cons_of_mem _ h)

theorem foldl_max_init_le (l : List ℤ) : ∀ a : ℤ, a ≤ l.foldl max a := by
  induction l with
  | nil => simp
  | cons x l ih =>
    intro a
    calc a ≤ max a x := le_max_left _ _
    _ ≤ l.foldl max (max a x) := ih _
    _ = (x :: l).foldl max a := by rw [List.foldl_cons]

theorem foldl_max_mem_le (l : List ℤ) : ∀ (a v : ℤ), v ∈ l → v ≤ l.foldl max a := by
  induction l with
  | nil => simp
  | cons x l ih =>
    intro a v hv
    rw [List.foldl_cons]
    rcases List.mem_cons.mp hv with rfl | hv
    · exact le_trans (le_max_right _ _) (foldl_max_init_le l _)
    · exact ih _ _ hv

theorem foldl_max_mem_or_init (l : List ℤ) : ∀ a : ℤ, l.foldl max a = a ∨ l.foldl max a ∈ l := by
  induction l with
  | nil => simp
  | cons x l ih =>
    intro a
    rw [List.foldl_cons]
    rcases ih (max a x) with h | h
    · rcases max_choice a x with hm | hm
      · exact Or.inl (h.trans hm)
      · exact Or.inr (by rw [h, hm]; exact List.mem_cons_self _ _)
    · exact Or.inr (List.mem_cons_of_mem _ h)

/-- The head of the sorted copy of a non-empty `int64` list equals the
sentinel-fold minimum used by `SampleSnapshot.Min`. -/
theorem sorted_head_eq_goMin (l : List ℤ) (hne : l ≠ [])
    (hub : ∀ v ∈ l, v ≤ int64Max) :
    (l.insertionSort (· ≤ ·)).getD 0 0 =
      l.foldl (fun mn v => if mn > v then v else mn) int64Max := by
  rw [goMinStep_eq_min]
  have hperm := List.perm_insertionSort (· ≤ ·) l
  have hsorted := List.sorted_insertionSort (· ≤ ·) l
  rcases hsl : l.insertionSort (· ≤ ·) with _ | ⟨x, rest⟩
  · exact absurd (hperm.symm.trans (hsl ▸ List.Perm.refl _)).eq_nil hne
  · rw [hsl] at hperm hsorted
    have hxmem : x ∈ l := hperm.subset (List.mem_cons_self _ _)
    have hxle : ∀ v ∈ l, x ≤ v := by
      intro v hv
      rcases List.mem_cons.mp (hperm.symm.subset hv) with rfl | hv2
      · exact le_refl _
      · exact List.rel_of_sorted_cons hsorted _ hv2
    have hmle : l.foldl min int64Max ≤ x := foldl_min_le_mem l _ _ hxmem
    rcases foldl_min_mem_or_init l int64Max with hm | hm
    · have hxub : x ≤ l.foldl min int64Max := by rw [hm]; exact hub x hxmem
      simpa using le_antisymm hxub hmle
    · simpa using le_antisymm (hxle _ hm) hmle

/-- The last element of the sorted copy of a non-empty `int64` list
equals the sentinel-fold maximum used by `SampleSnapshot.Max`. -/
theorem sorted_last_eq_goMax (l : List ℤ) (hne : l ≠ [])
    (hlb : ∀ v ∈ l, int64Min ≤ v) :
    (l.insertionSort (· ≤ ·)).getD (l.length - 1) 0 =
      l.foldl (fun mx v => if mx < v then v else mx) int64Min := by
  rw [goMaxStep_eq_max]
  have hperm := List.perm_insertionSort (· ≤ ·) l
  have hsorted := List.sorted_insertionSort (· ≤ ·) l
  have hlen : 0 < (l.insertionSort (· ≤ ·)).length := by
    rw [List.length_insertionSort]
    exact List.length_pos.mpr hne
  have hL : l.length - 1 = (l.insertionSort (· ≤ ·)).length - 1 := by
    rw [List.length_insertionSort]
  rw [hL]
  have hidx : (l.insertionSort (· ≤ ·)).length - 1 < (l.insertionSort (· ≤ ·)).length := by omega
  rw [List.getD_eq_getElem _ _ hidx]
  set sl := l.insertionSort (· ≤ ·) with hsl
  have hlast_mem : sl[sl.length - 1] ∈ l := hperm.subset (List.getElem_mem _)
  have hlast_ub : ∀ v ∈ l, v ≤ sl[sl.length - 1] := by
    intro v hv
    obtain ⟨i, hi⟩ := List.mem_iff_get.mp (hperm.symm.subset hv)
    have := hsorted.rel_get_of_le (a := i) (b := ⟨sl.length - 1, hidx⟩)
      (by exact Fin.mk_le_mk.mpr (by omega))
    rw [hi] at this
    simpa [List.get_eq_getElem] using this
  have hmle : l.foldl max int64Min ≤ sl[sl.length - 1] := by
    rcases foldl_max_mem_or_init l int64Min with hm | hm
    · rw [hm]
      exact hlb _ hlast_mem
    · exact hlast_ub _ hm
  exact le_antisymm (foldl_max_mem_le l _ _ hlast_mem) hmle

/-- Below-range percentile: when `pos = p * (n+1) < 1` the score is the
retained minimum. -/
theorem percentile_low_is_min (c : ℤ) (values : List ℤ) (p : ℝ) (hne : values ≠ [])
    (hub : ∀ v ∈ values, v ≤ int64Max)
    (hp : p * ((values.length : ℝ) + 1) < 1) :
    SampleSnapshot.Percentile ⟨c, values⟩ p = ((SampleSnapshot.Min ⟨c, values⟩ : ℤ) : ℝ) := by
  have hlen0 : ¬ values.length = 0 := by simpa using (List.length_pos.mpr hne).ne'
  have hlenpos : 0 < values.length := List.length_pos.mpr hne
  simp only [SampleSnapshot.Percentile, SampleSnapshot.Percentiles, SampleSnapshot.Min]
  rw [if_neg hlen0, if_pos hlenpos, if_neg hlen0]
  simp only [List.map_cons, List.map_nil, List.getD_cons_zero]
  simp only [percentileScore, List.length_insertionSort]
  rw [if_pos hp, sorted_head_eq_goMin values hne hub]

/-- Above-range percentile: when `pos = p * (n+1) ≥ n` the score is the
retained maximum. -/
theorem percentile_high_is_max (c : ℤ) (values : List ℤ) (p : ℝ) (hne : values ≠ [])
    (hlb : ∀ v ∈ values, int64Min ≤ v)
    (hp : p * ((values.length : ℝ) + 1) ≥ (values.length : ℝ)) :
    SampleSnapshot.Percentile ⟨c, values⟩ p = ((SampleSnapshot.Max ⟨c, values⟩ : ℤ) : ℝ) := by
  have hlen0 : ¬ values.length = 0 := by simpa using (List.length_pos.mpr hne).ne'
  have hlenpos : 0 < values.length := List.length_pos.mpr hne
  have hlen1 : (1 : ℝ) ≤ (values.length : ℝ) := by
    exact_mod_cast Nat.one_le_iff_ne_zero.mpr hlen0
  simp only [SampleSnapshot.Percentile, SampleSnapshot.Percentiles, SampleSnapshot.Max]
  rw [if_neg hlen0, if_pos hlenpos, if_neg hlen0]
  simp only [List.map_cons, List.map_nil, List.getD_cons_zero]
  simp only [percentileScore, List.length_insertionSort]
  rw [if_neg (by linarith : ¬ p * ((values.length : ℝ) + 1) < 1), if_pos hp,
    sorted_last_eq_goMax values hne hlb]

/-- Median of the sorted values `[1,2,3,4,5]`: `pos = 3`, zero
fractional part. -/
theorem percScore_median_15 : percentileScore [1, 2, 3, 4, 5] 0.5 = 3 := by
  unfold percentileScore
  norm_num
  rw [show Int.toNat 3 = 3 from rfl]
  norm_num [List.getD]

/-- 75th percentile of `[1,2,3,4,5]`: `pos = 4.5`, interpolating halfway
between 4 and 5. -/
theorem percScore_p75_15 : percentileScore [1, 2, 3, 4, 5] 0.75 = 4.5 := by
  unfold percentileScore
  norm_num
  simp only [show Int.toNat 4 = 4 from rfl]
  norm_num [List.getD]

/-- Claim C4: percentiles sort the retained values ascending and use
`pos = p * (n+1)`: on `[5,1,4,2,3]` (observed unsorted) the median is 3
and p75 interpolates to 4.5; on any non-empty snapshot a position below
1 yields the minimum and a position at or above `n` yields the maximum
(for genuine int64 values); every statistic of an empty snapshot is
zero. -/
theorem snapshot_percentiles_spec :
    (∀ (c : ℤ) (p : ℝ),
      SampleSnapshot.Percentile ⟨c, []⟩ p = 0 ∧ SampleSnapshot.Min ⟨c, []⟩ = 0 ∧
      SampleSnapshot.Max ⟨c, []⟩ = 0 ∧ SampleSnapshot.Mean ⟨c, []⟩ = 0 ∧
      SampleSnapshot.StdDev ⟨c, []⟩ = 0 ∧ SampleSnapshot.Sum ⟨c, []⟩ = 0) ∧
    (SampleSnapshot.Percentiles ⟨5, [5, 1, 4, 2, 3]⟩ [0.5, 0.75] = [3, 4.5]) ∧
    (∀ (c : ℤ) (values : List ℤ) (p : ℝ), values ≠ [] →
      (∀ v ∈ values, v ≤ int64Max) →
      p * ((values.length : ℝ) + 1) < 1 →
      SampleSnapshot.Percentile ⟨c, values⟩ p = ((SampleSnapshot.Min ⟨c, values⟩ : ℤ) : ℝ)) ∧
    (∀ (c : ℤ) (values : List ℤ) (p : ℝ), values ≠ [] →
      (∀ v ∈ values, int64Min ≤ v) →
      p * ((values.length : ℝ) + 1) ≥ (values.length : ℝ) →
      SampleSnapshot.Percentile ⟨c, values⟩ p = ((SampleSnapshot.Max ⟨c, values⟩ : ℤ) : ℝ)) := by
  refine ⟨fun c p => ?_, ?_, percentile_low_is_min, percentile_high_is_max⟩
  · refine ⟨?_, rfl, rfl, ?_, ?_, rfl⟩
    · simp [SampleSnapshot.Percentile]
    · simp [SampleSnapshot.Mean]
    · simp [SampleSnapshot.StdDev, SampleSnapshot.Variance]
  · have hsort : ([5, 1, 4, 2, 3] : List ℤ).insertionSort (· ≤ ·) = [1, 2, 3, 4, 5] := by decide
    simp only [SampleSnapshot.Percentiles]
    rw [if_pos (by norm_num)]
    simp only [hsort, List.map_cons, List.map_nil]
    rw [percScore_median_15, percScore_p75_15]

/-- Witness for C4: the min and max branches applied on the concrete
snapshot `⟨2, [2,1]⟩` at `p = 1/10` and `p = 1`. -/
theorem snapshot_percentiles_spec_witness :
    (([2, 1] : List ℤ) ≠ [] ∧ (∀ v ∈ ([2, 1] : List ℤ), v ≤ int64Max) ∧
      (1 / 10 : ℝ) * (((2 : ℕ) : ℝ) + 1) < 1) ∧
    SampleSnapshot.Percentile ⟨2, [2, 1]⟩ (1 / 10) =
      ((SampleSnapshot.Min ⟨2, [2, 1]⟩ : ℤ) : ℝ) ∧
    ((∀ v ∈ ([2, 1] : List ℤ), int64Min ≤ v) ∧
      (1 : ℝ) * (((2 : ℕ) : ℝ) + 1) ≥ ((2 : ℕ) : ℝ)) ∧
    SampleSnapshot.Percentile ⟨2, [2, 1]⟩ 1 = ((SampleSnapshot.Max ⟨2, [2, 1]⟩ : ℤ) : ℝ) :=
  ⟨⟨by decide, by decide, by norm_num⟩,
    snapshot_percentiles_spec.2.2.1 2 [2, 1] (1 / 10) (by decide) (by decide) (by norm_num),
    ⟨by decide, by norm_num⟩,
    snapshot_percentiles_spec.2.2.2 2 [2, 1] 1 (by decide) (by decide) (by norm_num)⟩
